import Mathlib

/-!
Verification of the `Guesser` class: a single-secret guess gate with a
three-strike attempt counter, a distance-triggered lockout, and a
`remaining` budget query.  The repository ships only the test suite
(`GuesserTest.cpp`); the implementation file `Guesser.cpp` is absent, so
the operational definitions below are modelled from the specification and
cross-checked against the behaviour the test suite asserts.

Strings are embedded as `List Char`; the C++ `int` returned by
`remaining()` is embedded as `Int`.
-/

/-- Modelled from the spec: the character walk at the core of
`Guesser::distance` (the implementation file is missing from the
repository).  The two strings are walked in parallel, counting one for
every position where the characters differ; when one string runs out, the
leftover length of the longer string (the difference in length) is
added. -/
def distAux : List Char → List Char → Nat
  | a :: as, b :: bs => (if a = b then 0 else 1) + distAux as bs
  | [], bs => bs.length
  | as, [] => as.length

/-- The number of positions `i` below both lengths where the characters
of the two strings differ (the Hamming count on the common indices). -/
def charDiffs : List Char → List Char → Nat
  | a :: as, b :: bs => (if a = b then 0 else 1) + charDiffs as bs
  | _, _ => 0

/-- The absolute difference of the lengths of the two strings. -/
def lenDiff (a b : List Char) : Nat :=
  max a.length b.length - min a.length b.length

/-- Modelled from the spec: `Guesser::distance` (the implementation file
is missing from the repository).  The distance is the difference in length
plus the number of differing characters on the common positions, capped at
the length of the secret: the spec's short-secret clause ("the
length-difference term … is bounded by the secret's own short length") and
the implementation description quoted by the test suite ("if m_secret has
a 10 characters and the guess has 100, the distance is 10") both state the
cap, and the test suite's short-password tests require it. -/
def distance (secret guess : List Char) : Nat :=
  min (distAux secret guess) secret.length

/-- The state of a `Guesser` instance: the stored secret, the attempt
counter `GuessCount`, and the lock flag `LockState`. -/
structure Guesser where
  secret : List Char
  guessCount : Nat
  locked : Bool
deriving DecidableEq

/-- Modelled from the spec: the constructor `Guesser(string secret)` —
stores the first 32 characters of the given secret (shorter secrets
unmodified), starts `GuessCount` at 0 and `LockState` unlocked. -/
def Guesser.make (secret : List Char) : Guesser :=
  { secret := secret.take 32, guessCount := 0, locked := false }

/-- Modelled from the spec: `Guesser::match(string guess)` (the
implementation file is missing from the repository).  A locked instance
returns false with no state change; an exact (case-sensitive, same-length)
match resets the counter and returns true; otherwise the counter is
incremented, the lock is set when the computed distance exceeds 2 or the
counter reaches 3, and false is returned.  `match` is a Lean keyword, so
the operation is named `matchGuess`; it returns the C++ return value
paired with the updated instance. -/
def Guesser.matchGuess (g : Guesser) (guess : List Char) : Bool × Guesser :=
  if g.locked then
    (false, g)
  else if guess = g.secret then
    (true, { g with guessCount := 0 })
  else
    let c := g.guessCount + 1
    let d := distance g.secret guess
    let l := if 2 < d then true else if c = 3 then true else false
    (false, { g with guessCount := c, locked := l })

/-- Modelled from the spec: `Guesser::remaining()` returns
`3 - GuessCount`, a pure read of the attempt budget. -/
def Guesser.remaining (g : Guesser) : Int :=
  3 - (g.guessCount : Int)

/-- Runs a sequence of `match` calls from a state, keeping the final
state.  `remaining` mutates nothing, so the states reachable by arbitrary
interleavings of `match` and `remaining` calls are exactly the states
produced by `run`. -/
def Guesser.run (g : Guesser) : List (List Char) → Guesser
  | [] => g
  | x :: xs => Guesser.run (g.matchGuess x).2 xs

/-- A state reachable from some construction by some sequence of calls. -/
def Guesser.Reachable (g : Guesser) : Prop :=
  ∃ s xs, Guesser.run (Guesser.make s) xs = g

/-- The secret "Secret" of the test suite, as a character list. -/
def secretSix : List Char := ['S', 'e', 'c', 'r', 'e', 't']

/-- The near guess "Secrett" of the test suite (distance 1). -/
def wrongSeven : List Char := ['S', 'e', 'c', 'r', 'e', 't', 't']

/-- The far guess "Secretttt" of the test suite (distance 3). -/
def wrongNine : List Char := ['S', 'e', 'c', 'r', 'e', 't', 't', 't', 't']

/-- The 37-character secret used to witness truncation. -/
def secret37 : List Char :=
  ['a', 'a', 'a', 'a', 'a', 'a', 'b', 'b', 'b', 'b', 'b', 'b',
   'c', 'c', 'c', 'c', 'c', 'c', 'd', 'd', 'd', 'd', 'd', 'd',
   'e', 'e', 'e', 'e', 'e', 'e', 'f', 'f', 'f', 'f', 'f', 'f', 'g']

/-- A locked instance ignores the call entirely: false, identical state. -/
theorem matchGuess_of_locked (g : Guesser) (x : List Char) (h : g.locked = true) :
    g.matchGuess x = (false, g) := by
  simp [Guesser.matchGuess, h]

/-- A locked instance is a fixed point of every run of calls. -/
theorem run_of_locked (g : Guesser) (xs : List (List Char)) (h : g.locked = true) :
    g.run xs = g := by
  induction xs with
  | nil => rfl
  | cons x xs ih => simp [Guesser.run, matchGuess_of_locked g x h, ih]

/-- An exact match on an unlocked instance returns true and zeroes the counter. -/
theorem matchGuess_of_eq (g : Guesser) (x : List Char) (h : g.locked = false)
    (he : x = g.secret) :
    g.matchGuess x = (true, { g with guessCount := 0 }) := by
  simp [Guesser.matchGuess, h, he]

/-- A mismatch on an unlocked instance: false, counter incremented, lock set
exactly when the distance exceeds 2 or the new counter value is 3. -/
theorem matchGuess_of_ne (g : Guesser) (x : List Char) (h : g.locked = false)
    (hne : x ≠ g.secret) :
    g.matchGuess x =
      (false, { g with guessCount := g.guessCount + 1,
                       locked := decide (2 < distance g.secret x ∨ g.guessCount + 1 = 3) }) := by
  simp only [Guesser.matchGuess, h, Bool.false_eq_true, if_false, hne, if_neg hne]
  by_cases hd : 2 < distance g.secret x
  · simp [hd]
  · by_cases hc : g.guessCount + 1 = 3 <;> simp [hd, hc]

/-- A non-locking mismatch: distance within 2 and counter below 3 afterwards. -/
theorem matchGuess_of_ne_small (g : Guesser) (x : List Char) (h : g.locked = false)
    (hne : x ≠ g.secret) (hd : distance g.secret x ≤ 2) (hc : g.guessCount + 1 ≠ 3) :
    g.matchGuess x =
      (false, { g with guessCount := g.guessCount + 1, locked := false }) := by
  rw [matchGuess_of_ne g x h hne]
  simp [Nat.not_lt.mpr hd, hc]

/-- One step preserves the counter invariant: the counter stays at most 3,
and at most 2 while unlocked. -/
theorem matchGuess_inv (g : Guesser) (x : List Char)
    (h1 : g.guessCount ≤ 3) (h2 : g.locked = false → g.guessCount ≤ 2) :
    (g.matchGuess x).2.guessCount ≤ 3 ∧
      ((g.matchGuess x).2.locked = false → (g.matchGuess x).2.guessCount ≤ 2) := by
  by_cases hl : g.locked = true
  · rw [matchGuess_of_locked g x hl]
    exact ⟨h1, fun hf => h2 hf⟩
  · replace hl : g.locked = false := by
      cases hv : g.locked
      · rfl
      · exact absurd hv hl
    by_cases he : x = g.secret
    · rw [matchGuess_of_eq g x hl he]
      exact ⟨Nat.zero_le 3, fun _ => Nat.zero_le 2⟩
    · rw [matchGuess_of_ne g x hl he]
      dsimp only
      refine ⟨by have := h2 hl; omega, ?_⟩
      intro hf
      simp only [decide_eq_false_iff_not, not_or] at hf
      have := h2 hl
      omega

/-- A run preserves the counter invariant. -/
theorem run_inv (g : Guesser) (xs : List (List Char))
    (h1 : g.guessCount ≤ 3) (h2 : g.locked = false → g.guessCount ≤ 2) :
    (g.run xs).guessCount ≤ 3 ∧
      ((g.run xs).locked = false → (g.run xs).guessCount ≤ 2) := by
  induction xs generalizing g with
  | nil => exact ⟨h1, h2⟩
  | cons x xs ih =>
      have hstep := matchGuess_inv g x h1 h2
      simpa [Guesser.run] using ih (g.matchGuess x).2 hstep.1 hstep.2

/-- Every reachable state satisfies the counter invariant. -/
theorem reachable_inv (g : Guesser) (h : g.Reachable) :
    g.guessCount ≤ 3 ∧ (g.locked = false → g.guessCount ≤ 2) := by
  obtain ⟨s, xs, hr⟩ := h
  have := run_inv (Guesser.make s) xs (by simp [Guesser.make]) (by simp [Guesser.make])
  rwa [hr] at this

/-- Step form of a non-locking mismatch on an explicit state. -/
theorem step_wrong (a w : List Char) (c : Nat) (hne : w ≠ a)
    (hd : distance a w ≤ 2) (hc : c + 1 ≠ 3) :
    (⟨a, c, false⟩ : Guesser).matchGuess w = (false, ⟨a, c + 1, false⟩) :=
  matchGuess_of_ne_small ⟨a, c, false⟩ w rfl hne hd hc

/-- Step form of an exact match on an explicit unlocked state. -/
theorem step_right (a : List Char) (c : Nat) :
    (⟨a, c, false⟩ : Guesser).matchGuess a = (true, ⟨a, 0, false⟩) :=
  matchGuess_of_eq ⟨a, c, false⟩ a rfl rfl

/-- Step form of the third consecutive mismatch: the counter reaches 3 and
the count-based lock is set. -/
theorem step_third (a w : List Char) (hne : w ≠ a) :
    (⟨a, 2, false⟩ : Guesser).matchGuess w = (false, ⟨a, 3, true⟩) := by
  rw [matchGuess_of_ne ⟨a, 2, false⟩ w rfl hne]
  simp

/-- Step form of a far mismatch: the distance-based lock is set. -/
theorem step_far (a w : List Char) (c : Nat) (hne : w ≠ a)
    (hd : 2 < distance a w) :
    (⟨a, c, false⟩ : Guesser).matchGuess w = (false, ⟨a, c + 1, true⟩) := by
  rw [matchGuess_of_ne ⟨a, c, false⟩ w rfl hne]
  simp [hd]

/-- C1: Lock permanence — from any locked instance, after any further
sequence of `match` calls, the next `match` call (with any guess, the
exactly correct secret included) returns false, and the instance is still
locked afterwards: no operation ever leaves the Locked state. -/
theorem C1_lock_permanence (g : Guesser) (xs : List (List Char)) (x : List Char)
    (h : g.locked = true) :
    ((g.run xs).matchGuess x).1 = false ∧ ((g.run xs).matchGuess x).2.locked = true := by
  rw [run_of_locked g xs h, matchGuess_of_locked g x h]
  exact ⟨rfl, h⟩

/-- C1 witness: a concrete locked instance stays locked and keeps
answering false across a later call sequence, the correct secret included. -/
theorem C1_lock_permanence_witness :
    (Guesser.mk secretSix 1 true).locked = true ∧
      (((Guesser.mk secretSix 1 true).run [wrongSeven, secretSix]).matchGuess secretSix).1 = false ∧
      (((Guesser.mk secretSix 1 true).run [wrongSeven, secretSix]).matchGuess secretSix).2.locked = true :=
  ⟨rfl, C1_lock_permanence (Guesser.mk secretSix 1 true) [wrongSeven, secretSix] secretSix rfl⟩

/-- C3: Distance-based lock — from any unlocked state, a single wrong
guess whose computed distance exceeds 2 returns false and sets the lock on
that very call; the lock survives any further sequence of calls, and in
particular an immediately following `match` with the exactly correct
secret returns false. -/
theorem C3_distance_lock (g : Guesser) (x : List Char) (xs : List (List Char))
    (h : g.locked = false) (hne : x ≠ g.secret) (hd : 2 < distance g.secret x) :
    (g.matchGuess x).1 = false ∧ (g.matchGuess x).2.locked = true ∧
      ((g.matchGuess x).2.run xs).locked = true ∧
      (((g.matchGuess x).2.matchGuess g.secret).1 = false) := by
  have hm := matchGuess_of_ne g x h hne
  have hl : (g.matchGuess x).2.locked = true := by
    rw [hm]
    simp [hd]
  refine ⟨by rw [hm], hl, ?_, ?_⟩
  · rw [run_of_locked _ xs hl]
    exact hl
  · rw [matchGuess_of_locked _ g.secret hl]

/-- C3 witness: the scenario of the test suite — secret "Secret", far
guess "Secretttt" (distance 3) locks at once; the correct secret then
fails. -/
theorem C3_distance_lock_witness :
    ((Guesser.make secretSix).locked = false ∧
        wrongNine ≠ (Guesser.make secretSix).secret ∧
        2 < distance (Guesser.make secretSix).secret wrongNine) ∧
      ((Guesser.make secretSix).matchGuess wrongNine).1 = false ∧
      ((Guesser.make secretSix).matchGuess wrongNine).2.locked = true ∧
      (((Guesser.make secretSix).matchGuess wrongNine).2.run [secretSix, wrongSeven]).locked = true ∧
      (((Guesser.make secretSix).matchGuess wrongNine).2.matchGuess (Guesser.make secretSix).secret).1 = false :=
  ⟨⟨rfl, by decide, by decide⟩,
    C3_distance_lock (Guesser.make secretSix) wrongNine [secretSix, wrongSeven] rfl
      (by decide) (by decide)⟩

/-- C6: a `match` call on an already locked instance returns false and is
side-effect free: the state is unchanged, so `remaining` returns the same
value before and after the call. -/
theorem C6_locked_frame (g : Guesser) (x : List Char) (h : g.locked = true) :
    g.matchGuess x = (false, g) ∧ (g.matchGuess x).2.remaining = g.remaining := by
  refine ⟨matchGuess_of_locked g x h, ?_⟩
  rw [matchGuess_of_locked g x h]

/-- C6 witness: a concrete locked instance answers false to the correct
secret with no state change and an unchanged `remaining`. -/
theorem C6_locked_frame_witness :
    (Guesser.mk secretSix 1 true).locked = true ∧
      (Guesser.mk secretSix 1 true).matchGuess secretSix = (false, Guesser.mk secretSix 1 true) ∧
      ((Guesser.mk secretSix 1 true).matchGuess secretSix).2.remaining =
        (Guesser.mk secretSix 1 true).remaining :=
  ⟨rfl, (C6_locked_frame (Guesser.mk secretSix 1 true) secretSix rfl).1,
    (C6_locked_frame (Guesser.mk secretSix 1 true) secretSix rfl).2⟩

/-- C2: Count-based lock boundary — for any secret, three consecutive
wrong guesses, each with computed distance at most 2 and with no
intervening exact match, lock the instance: after two such guesses the
instance is still unlocked, the third `match` call itself returns false
and leaves the instance locked, and the next `match` call with the exactly
correct stored secret returns false. -/
theorem C2_count_lock_boundary (s w1 w2 w3 : List Char)
    (h1 : w1 ≠ s.take 32) (h2 : w2 ≠ s.take 32) (h3 : w3 ≠ s.take 32)
    (d1 : distance (s.take 32) w1 ≤ 2) (d2 : distance (s.take 32) w2 ≤ 2)
    (d3 : distance (s.take 32) w3 ≤ 2) :
    ((Guesser.make s).run [w1, w2]).locked = false ∧
      (((Guesser.make s).run [w1, w2]).matchGuess w3).1 = false ∧
      (((Guesser.make s).run [w1, w2]).matchGuess w3).2.locked = true ∧
      (((Guesser.make s).run [w1, w2, w3]).matchGuess (s.take 32)).1 = false := by
  have hm : Guesser.make s = ⟨s.take 32, 0, false⟩ := rfl
  have s1 : (⟨s.take 32, 0, false⟩ : Guesser).matchGuess w1 = (false, ⟨s.take 32, 1, false⟩) :=
    step_wrong (s.take 32) w1 0 h1 d1 (by omega)
  have s2 : (⟨s.take 32, 1, false⟩ : Guesser).matchGuess w2 = (false, ⟨s.take 32, 2, false⟩) :=
    step_wrong (s.take 32) w2 1 h2 d2 (by omega)
  have s3 : (⟨s.take 32, 2, false⟩ : Guesser).matchGuess w3 = (false, ⟨s.take 32, 3, true⟩) :=
    step_third (s.take 32) w3 h3
  have hr : (Guesser.make s).run [w1, w2] = ⟨s.take 32, 2, false⟩ := by
    simp [Guesser.run, hm, s1, s2]
  have hr3 : (Guesser.make s).run [w1, w2, w3] = ⟨s.take 32, 3, true⟩ := by
    simp [Guesser.run, hm, s1, s2, s3]
  refine ⟨by rw [hr], by rw [hr, s3], by rw [hr, s3], ?_⟩
  rw [hr3, matchGuess_of_locked _ _ rfl]

/-- C2 witness: secret "Secret", three guesses "Secrett" (distance 1 each)
— unlocked after two, the third call returns false and locks, and the
correct secret then fails. -/
theorem C2_count_lock_boundary_witness :
    (wrongSeven ≠ secretSix.take 32 ∧ distance (secretSix.take 32) wrongSeven ≤ 2) ∧
      ((Guesser.make secretSix).run [wrongSeven, wrongSeven]).locked = false ∧
      (((Guesser.make secretSix).run [wrongSeven, wrongSeven]).matchGuess wrongSeven).1 = false ∧
      (((Guesser.make secretSix).run [wrongSeven, wrongSeven]).matchGuess wrongSeven).2.locked = true ∧
      (((Guesser.make secretSix).run [wrongSeven, wrongSeven, wrongSeven]).matchGuess
        (secretSix.take 32)).1 = false :=
  ⟨⟨by decide, by decide⟩,
    C2_count_lock_boundary secretSix wrongSeven wrongSeven wrongSeven
      (by decide) (by decide) (by decide) (by decide) (by decide) (by decide)⟩

/-- C5: `remaining` returns `3 - GuessCount` whatever the lock state, is a
pure read (in this embedding it is a function of the state that returns no
modified state), decrements by exactly 1 on a mismatched `match` call from
an unlocked state whether or not that mismatch triggers the distance lock,
and on reachable states never goes below its floor of 0. -/
theorem C5_remaining (g : Guesser) (x : List Char) (hr : g.Reachable) :
    g.remaining = 3 - (g.guessCount : Int) ∧
      (g.locked = false → x ≠ g.secret →
        (g.matchGuess x).2.remaining = g.remaining - 1) ∧
      0 ≤ g.remaining := by
  refine ⟨rfl, fun hl hne => ?_, ?_⟩
  · rw [matchGuess_of_ne g x hl hne]
    simp only [Guesser.remaining]
    push_cast
    ring
  · have hb := (reachable_inv g hr).1
    simp only [Guesser.remaining]
    omega

/-- C5 witness: from the fresh instance with secret "Secret", the far
mismatch "Secretttt" (which triggers the distance lock) still decrements
`remaining` by exactly 1, and `remaining` is nonnegative. -/
theorem C5_remaining_witness :
    ((Guesser.make secretSix).locked = false ∧
        wrongNine ≠ (Guesser.make secretSix).secret) ∧
      (Guesser.make secretSix).remaining = 3 - ((Guesser.make secretSix).guessCount : Int) ∧
      ((Guesser.make secretSix).matchGuess wrongNine).2.remaining =
        (Guesser.make secretSix).remaining - 1 ∧
      0 ≤ (Guesser.make secretSix).remaining := by
  have h := C5_remaining (Guesser.make secretSix) wrongNine ⟨secretSix, [], rfl⟩
  exact ⟨⟨rfl, by decide⟩, h.1, h.2.1 rfl (by decide), h.2.2⟩

/-- C10: Bounded-counter invariant — in every state reachable from
construction by any sequence of calls, the counter lies between 0 and 3,
equivalently `remaining` lies in the range 0 to 3, and a fresh instance
starts with `remaining` equal to 3. -/
theorem C10_bounded_counter (g : Guesser) (s : List Char) (hr : g.Reachable) :
    g.guessCount ≤ 3 ∧ 0 ≤ g.remaining ∧ g.remaining ≤ 3 ∧
      (Guesser.make s).remaining = 3 := by
  have hb := (reachable_inv g hr).1
  refine ⟨hb, ?_, ?_, rfl⟩ <;> simp only [Guesser.remaining] <;> omega

/-- C10 witness: the state after three wrong guesses from the fresh
instance with secret "Secret" is reachable and satisfies the bounds. -/
theorem C10_bounded_counter_witness :
    ((Guesser.make secretSix).run [wrongSeven, wrongSeven, wrongSeven]).guessCount ≤ 3 ∧
      0 ≤ ((Guesser.make secretSix).run [wrongSeven, wrongSeven, wrongSeven]).remaining ∧
      ((Guesser.make secretSix).run [wrongSeven, wrongSeven, wrongSeven]).remaining ≤ 3 ∧
      (Guesser.make secretSix).remaining = 3 :=
  C10_bounded_counter ((Guesser.make secretSix).run [wrongSeven, wrongSeven, wrongSeven])
    secretSix ⟨secretSix, [wrongSeven, wrongSeven, wrongSeven], rfl⟩

/-- C4: Reset-on-success — on any unlocked instance an exact `match` of
the stored secret returns true and resets the counter to 0; that path is
the only one that ever resets the counter (any call that ends with a zero
counter either started from zero or was an exact match on an unlocked
instance); and concretely, one or two wrong guesses (distance at most 2)
followed by the correct guess bring `remaining` back to 3, after which up
to two further wrong guesses still allow the correct guess to succeed. -/
theorem C4_reset_on_success (g g2 : Guesser) (x s w1 w2 w3 w4 : List Char)
    (hg : g.locked = false)
    (hz : (g2.matchGuess x).2.guessCount = 0)
    (h1 : w1 ≠ s.take 32) (h2 : w2 ≠ s.take 32)
    (h3 : w3 ≠ s.take 32) (h4 : w4 ≠ s.take 32)
    (d1 : distance (s.take 32) w1 ≤ 2) (d2 : distance (s.take 32) w2 ≤ 2)
    (d3 : distance (s.take 32) w3 ≤ 2) (d4 : distance (s.take 32) w4 ≤ 2) :
    g.matchGuess g.secret = (true, { g with guessCount := 0 }) ∧
      (g2.guessCount = 0 ∨ (g2.locked = false ∧ x = g2.secret)) ∧
      ((Guesser.make s).run [w1, w2, s.take 32]).remaining = 3 ∧
      (((Guesser.make s).run [w1, w2, s.take 32, w3, w4]).matchGuess (s.take 32)).1 = true ∧
      (((Guesser.make s).run [w1, s.take 32, w3, w4]).matchGuess (s.take 32)).1 = true := by
  have hm : Guesser.make s = ⟨s.take 32, 0, false⟩ := rfl
  have s01 : (⟨s.take 32, 0, false⟩ : Guesser).matchGuess w1 = (false, ⟨s.take 32, 1, false⟩) :=
    step_wrong (s.take 32) w1 0 h1 d1 (by omega)
  have s12 : (⟨s.take 32, 1, false⟩ : Guesser).matchGuess w2 = (false, ⟨s.take 32, 2, false⟩) :=
    step_wrong (s.take 32) w2 1 h2 d2 (by omega)
  have s03 : (⟨s.take 32, 0, false⟩ : Guesser).matchGuess w3 = (false, ⟨s.take 32, 1, false⟩) :=
    step_wrong (s.take 32) w3 0 h3 d3 (by omega)
  have s14 : (⟨s.take 32, 1, false⟩ : Guesser).matchGuess w4 = (false, ⟨s.take 32, 2, false⟩) :=
    step_wrong (s.take 32) w4 1 h4 d4 (by omega)
  refine ⟨matchGuess_of_eq g g.secret hg rfl, ?_, ?_, ?_, ?_⟩
  · by_cases hl : g2.locked = true
    · rw [matchGuess_of_locked g2 x hl] at hz
      exact Or.inl hz
    · replace hl : g2.locked = false := by
        cases hv : g2.locked
        · rfl
        · exact absurd hv hl
      by_cases he : x = g2.secret
      · exact Or.inr ⟨hl, he⟩
      · rw [matchGuess_of_ne g2 x hl he] at hz
        simp at hz
  · simp [Guesser.run, hm, s01, s12, step_right, Guesser.remaining]
  · simp [Guesser.run, hm, s01, s12, s03, s14, step_right]
  · simp [Guesser.run, hm, s01, s03, s14, step_right]

/-- C4 witness: secret "Secret" with wrong guesses "Secrett"; the reset
scenarios of the test suite, with `remaining` back at 3 after the reset. -/
theorem C4_reset_on_success_witness :
    ((Guesser.make secretSix).locked = false ∧
        ((Guesser.make secretSix).matchGuess secretSix).2.guessCount = 0 ∧
        wrongSeven ≠ secretSix.take 32 ∧ distance (secretSix.take 32) wrongSeven ≤ 2) ∧
      (Guesser.make secretSix).matchGuess (Guesser.make secretSix).secret =
        (true, { Guesser.make secretSix with guessCount := 0 }) ∧
      ((Guesser.make secretSix).guessCount = 0 ∨
        ((Guesser.make secretSix).locked = false ∧ secretSix = (Guesser.make secretSix).secret)) ∧
      ((Guesser.make secretSix).run [wrongSeven, wrongSeven, secretSix.take 32]).remaining = 3 ∧
      (((Guesser.make secretSix).run
          [wrongSeven, wrongSeven, secretSix.take 32, wrongSeven, wrongSeven]).matchGuess
        (secretSix.take 32)).1 = true ∧
      (((Guesser.make secretSix).run
          [wrongSeven, secretSix.take 32, wrongSeven, wrongSeven]).matchGuess
        (secretSix.take 32)).1 = true :=
  ⟨⟨rfl, by decide, by decide, by decide⟩,
    C4_reset_on_success (Guesser.make secretSix) (Guesser.make secretSix) secretSix secretSix
      wrongSeven wrongSeven wrongSeven wrongSeven rfl (by decide)
      (by decide) (by decide) (by decide) (by decide)
      (by decide) (by decide) (by decide) (by decide)⟩

/-- The recursive walk computes the length difference plus the Hamming
count on the common positions. -/
theorem distAux_eq (a b : List Char) : distAux a b = lenDiff a b + charDiffs a b := by
  induction a generalizing b with
  | nil =>
      cases b with
      | nil => simp [distAux, lenDiff, charDiffs]
      | cons y ys => simp [distAux, lenDiff, charDiffs]
  | cons x xs ih =>
      cases b with
      | nil => simp [distAux, lenDiff, charDiffs]
      | cons y ys =>
          simp only [distAux, charDiffs, lenDiff, List.length_cons, ih]
          by_cases hxy : x = y <;> simp only [hxy, if_true, if_neg] <;> omega

/-- The Hamming count on the common positions is symmetric. -/
theorem charDiffs_comm (a b : List Char) : charDiffs a b = charDiffs b a := by
  induction a generalizing b with
  | nil => cases b <;> rfl
  | cons x xs ih =>
      cases b with
      | nil => rfl
      | cons y ys =>
          simp only [charDiffs, ih]
          by_cases hxy : x = y
          · simp [hxy]
          · have hyx : ¬y = x := fun h => hxy h.symm
            simp [hxy, hyx]

/-- The length difference is symmetric. -/
theorem lenDiff_comm (a b : List Char) : lenDiff a b = lenDiff b a := by
  simp only [lenDiff]
  omega

/-- The Hamming count is at most either length. -/
theorem charDiffs_le (a b : List Char) : charDiffs a b ≤ a.length := by
  induction a generalizing b with
  | nil => cases b <;> simp [charDiffs]
  | cons x xs ih =>
      cases b with
      | nil => simp [charDiffs]
      | cons y ys =>
          simp only [charDiffs, List.length_cons]
          have := ih ys
          by_cases hxy : x = y <;> simp [hxy] <;> omega

/-- A string never differs from its own take on the common positions. -/
theorem charDiffs_take (a : List Char) (n : Nat) : charDiffs a (a.take n) = 0 := by
  induction a generalizing n with
  | nil => cases n <;> rfl
  | cons x xs ih =>
      cases n with
      | zero => rfl
      | succ m => simp [List.take, charDiffs, ih]

/-- C7 counterexample: with secret "a" and guess "aaaa" one string is a
strict prefix extension of the other, the length difference is 3 and no
common position differs — the claimed formula gives 3 — yet the computed
distance is 1; swapping the two strings gives 3, so the computed distance
is not symmetric either. -/
theorem C7_counterexample :
    distance ['a'] ['a', 'a', 'a', 'a'] = 1 ∧
      lenDiff ['a'] ['a', 'a', 'a', 'a'] + charDiffs ['a'] ['a', 'a', 'a', 'a'] = 3 ∧
      distance ['a', 'a', 'a', 'a'] ['a'] = 3 := by
  decide

/-- C7 (amended): the computed distance is the difference in length plus
the number of differing characters on the common positions, capped at the
length of the secret; the uncapped sum is symmetric in the two strings
(the cap is what breaks symmetry); on equal-length strings the distance is
exactly the Hamming count; when the guess is a prefix of the secret the
distance is exactly their length difference, and when the secret is a
prefix of the guess it is their length difference capped at the secret's
length. -/
theorem C7_distance_formula (a b p q s g u v : List Char)
    (hpq : p.length = q.length) (hsg : s.take g.length = g)
    (huv : v.take u.length = u) :
    distance a b = min (lenDiff a b + charDiffs a b) a.length ∧
      lenDiff a b + charDiffs a b = lenDiff b a + charDiffs b a ∧
      distance p q = charDiffs p q ∧
      distance s g = s.length - g.length ∧
      distance u v = min (v.length - u.length) u.length := by
  have hgs : g.length ≤ s.length := by
    have := congrArg List.length hsg
    simp only [List.length_take] at this
    omega
  have huvle : u.length ≤ v.length := by
    have := congrArg List.length huv
    simp only [List.length_take] at this
    omega
  refine ⟨?_, ?_, ?_, ?_, ?_⟩
  · simp only [distance, distAux_eq]
  · rw [lenDiff_comm, charDiffs_comm]
  · simp only [distance, distAux_eq]
    have h1 : lenDiff p q = 0 := by
      simp only [lenDiff]
      omega
    have h2 := charDiffs_le p q
    rw [h1]
    omega
  · simp only [distance, distAux_eq]
    have h0 : charDiffs s g = 0 := by
      rw [← hsg]
      exact charDiffs_take s g.length
    have h1 : lenDiff s g = s.length - g.length := by
      simp only [lenDiff]
      omega
    rw [h0, h1]
    omega
  · simp only [distance, distAux_eq]
    have h0 : charDiffs u v = 0 := by
      rw [charDiffs_comm, ← huv]
      exact charDiffs_take v u.length
    have h1 : lenDiff u v = v.length - u.length := by
      simp only [lenDiff]
      omega
    rw [h0, h1]
    omega

/-- C7 witness: the amended formula evaluated on concrete strings — the
test-suite pair "Secret"/"Secrett", an equal-length pair, a guess that is
a prefix of the secret, and a secret that is a prefix of the guess. -/
theorem C7_distance_formula_witness :
    ((['a', 'b'] : List Char).length = (['a', 'c'] : List Char).length ∧
        (['a', 'b', 'c'] : List Char).take (['a', 'b'] : List Char).length = ['a', 'b'] ∧
        (['a', 'a', 'a', 'a'] : List Char).take (['a'] : List Char).length = ['a']) ∧
      distance secretSix wrongSeven =
        min (lenDiff secretSix wrongSeven + charDiffs secretSix wrongSeven) secretSix.length ∧
      lenDiff secretSix wrongSeven + charDiffs secretSix wrongSeven =
        lenDiff wrongSeven secretSix + charDiffs wrongSeven secretSix ∧
      distance ['a', 'b'] ['a', 'c'] = charDiffs ['a', 'b'] ['a', 'c'] ∧
      distance ['a', 'b', 'c'] ['a', 'b'] =
        (['a', 'b', 'c'] : List Char).length - (['a', 'b'] : List Char).length ∧
      distance ['a'] ['a', 'a', 'a', 'a'] =
        min ((['a', 'a', 'a', 'a'] : List Char).length - (['a'] : List Char).length)
          (['a'] : List Char).length :=
  ⟨⟨by decide, by decide, by decide⟩,
    C7_distance_formula secretSix wrongSeven ['a', 'b'] ['a', 'c'] ['a', 'b', 'c'] ['a', 'b']
      ['a'] ['a', 'a', 'a', 'a'] (by decide) (by decide) (by decide)⟩

/-- C8: Short-secret quirk — when the stored secret has length 0, 1 or 2,
the computed distance to any guess whatsoever is at most 2, so the
distance-based lock can never be triggered: a single wrong guess against
such a secret returns false, leaves the instance unlocked, and a
subsequent exact match still returns true. -/
theorem C8_short_secret (s x w : List Char) (hlen : s.length ≤ 2) (hw : w ≠ s) :
    distance s x ≤ 2 ∧
      (Guesser.make s).secret = s ∧
      ((Guesser.make s).matchGuess w).1 = false ∧
      ((Guesser.make s).matchGuess w).2.locked = false ∧
      (((Guesser.make s).matchGuess w).2.matchGuess s).1 = true := by
  have htake : s.take 32 = s := List.take_of_length_le (by omega)
  have hdist : ∀ y, distance s y ≤ 2 := fun y => le_trans (Nat.min_le_right _ _) hlen
  have hm : Guesser.make s = ⟨s, 0, false⟩ := by
    simp [Guesser.make, htake]
  have s1 : (⟨s, 0, false⟩ : Guesser).matchGuess w = (false, ⟨s, 1, false⟩) :=
    step_wrong s w 0 hw (hdist w) (by omega)
  refine ⟨hdist x, by rw [hm], ?_, ?_, ?_⟩ <;> rw [hm] <;> simp [s1, step_right]

/-- C8 witness: the test-suite scenario — secret "aa", a sixteen-character
wrong guess (which would lock any longer secret), then the exact secret
still matches. -/
theorem C8_short_secret_witness :
    ((['a', 'a'] : List Char).length ≤ 2 ∧
        ['a', 'a', 'a', 'a', 'a', 'a', 'a', 'a', 'a', 'a', 'a', 'a', 'a', 'a', 'a', 'a'] ≠
          (['a', 'a'] : List Char)) ∧
      distance ['a', 'a']
        ['a', 'a', 'a', 'a', 'a', 'a', 'a', 'a', 'a', 'a', 'a', 'a', 'a', 'a', 'a', 'a'] ≤ 2 ∧
      (Guesser.make ['a', 'a']).secret = ['a', 'a'] ∧
      ((Guesser.make ['a', 'a']).matchGuess
        ['a', 'a', 'a', 'a', 'a', 'a', 'a', 'a', 'a', 'a', 'a', 'a', 'a', 'a', 'a', 'a']).1 = false ∧
      ((Guesser.make ['a', 'a']).matchGuess
        ['a', 'a', 'a', 'a', 'a', 'a', 'a', 'a', 'a', 'a', 'a', 'a', 'a', 'a', 'a', 'a']).2.locked = false ∧
      (((Guesser.make ['a', 'a']).matchGuess
        ['a', 'a', 'a', 'a', 'a', 'a', 'a', 'a', 'a', 'a', 'a', 'a', 'a', 'a', 'a', 'a']).2.matchGuess
        ['a', 'a']).1 = true :=
  ⟨⟨by decide, by decide⟩,
    C8_short_secret ['a', 'a']
      ['a', 'a', 'a', 'a', 'a', 'a', 'a', 'a', 'a', 'a', 'a', 'a', 'a', 'a', 'a', 'a']
      ['a', 'a', 'a', 'a', 'a', 'a', 'a', 'a', 'a', 'a', 'a', 'a', 'a', 'a', 'a', 'a']
      (by decide) (by decide)⟩

/-- C9: Truncation at construction — the constructor stores exactly the
first 32 characters of the given secret (a shorter secret is stored
unmodified, with no error); for a secret longer than 32 characters, the
stored secret has length exactly 32, `match` on the first 32 characters
returns true, and `match` on any other 32-character string (any other
32-character substring included) returns false. -/
theorem C9_truncation (s u t : List Char) (hlong : 32 < s.length)
    (hu : u.length ≤ 32) (ht : t.length = 32) (htne : t ≠ s.take 32) :
    (Guesser.make s).secret = s.take 32 ∧ (s.take 32).length = 32 ∧
      (Guesser.make u).secret = u ∧
      ((Guesser.make s).matchGuess (s.take 32)).1 = true ∧
      ((Guesser.make s).matchGuess t).1 = false := by
  refine ⟨rfl, ?_, List.take_of_length_le hu, ?_, ?_⟩
  · simp only [List.length_take]
    omega
  · rw [matchGuess_of_eq (Guesser.make s) (s.take 32) rfl rfl]
  · rw [matchGuess_of_ne (Guesser.make s) t rfl htne]

/-- C9 witness: a 37-character secret — matching its first 32 characters
succeeds, matching the 32-character substring shifted by one fails. -/
theorem C9_truncation_witness :
    (32 < secret37.length ∧ secretSix.length ≤ 32 ∧
        ((secret37.drop 1).take 32).length = 32 ∧
        (secret37.drop 1).take 32 ≠ secret37.take 32) ∧
      (Guesser.make secret37).secret = secret37.take 32 ∧
      (secret37.take 32).length = 32 ∧
      (Guesser.make secretSix).secret = secretSix ∧
      ((Guesser.make secret37).matchGuess (secret37.take 32)).1 = true ∧
      ((Guesser.make secret37).matchGuess ((secret37.drop 1).take 32)).1 = false :=
  ⟨⟨by decide, by decide, by decide, by decide⟩,
    C9_truncation secret37 secretSix ((secret37.drop 1).take 32)
      (by decide) (by decide) (by decide) (by decide)⟩
